import Mathlib

/-!
# Verification of the employee-db-manager repository

Shallow embedding of the three reimplementations (v1 flat script over
sqlite3, v2 layered CLI application, v3 FastAPI service) of the employee
record manager, together with proofs about the embedded operations.

Strings are modelled as lists of Unicode codepoints (`Str`).  The case
mappings model Python `str.lower` / `str.capitalize` on the alphabets the
program actually manipulates: ASCII letters and the Cyrillic block А-Я/а-я
used by the gender inputs "м"/"ж".
-/

/-- Strings as lists of Unicode codepoints. -/
abbrev Str := List Nat

/-- Python `str.lower`, restricted to the alphabets the program uses:
ASCII `A`-`Z` (65-90) and Cyrillic `А`-`Я` (1040-1071) map down by 32,
every other codepoint is unchanged. -/
def lowerChar (c : Nat) : Nat :=
  if 65 ≤ c ∧ c ≤ 90 then c + 32
  else if 1040 ≤ c ∧ c ≤ 1071 then c + 32
  else c

/-- Python upper-casing of a single codepoint (`str.capitalize` title-cases
the first character; on these alphabets that is plain upper-casing):
ASCII `a`-`z` (97-122) and Cyrillic `а`-`я` (1072-1103) map up by 32. -/
def upperChar (c : Nat) : Nat :=
  if 97 ≤ c ∧ c ≤ 122 then c - 32
  else if 1072 ≤ c ∧ c ≤ 1103 then c - 32
  else c

/-- `str.lower` on a whole string. -/
def lowerStr (s : Str) : Str := s.map lowerChar

/-- The whitespace codepoints Python `str.split()` splits on
(tab, LF, VT, FF, CR, space). -/
def isWs (c : Nat) : Bool :=
  c = 9 || c = 10 || c = 11 || c = 12 || c = 13 || c = 32

/-- Helper for Python `str.split()`: scanning from the left, return the
chunk up to the first whitespace character together with the (possibly
empty) chunks delimited by each further whitespace character. -/
def chunks : Str → Str × List Str
  | [] => ([], [])
  | c :: cs =>
    let r := chunks cs
    if isWs c then ([], r.1 :: r.2) else (c :: r.1, r.2)

/-- All whitespace-delimited chunks of a string, in order (empty chunks
included). -/
def allChunks (s : Str) : List Str := (chunks s).1 :: (chunks s).2

/-- Python `str.split()` (no argument): whitespace-delimited chunks with
the empty chunks discarded. -/
def pySplit (s : Str) : List Str :=
  (allChunks s).filter (fun w => decide (w ≠ []))

/-- Python `str.capitalize()` of one token: first character upper-cased,
the rest lower-cased. -/
def capitalizeTok : Str → Str
  | [] => []
  | c :: cs => upperChar c :: cs.map lowerChar

/-- `' '.join`: join tokens with a single space (codepoint 32). -/
def joinSp : List Str → Str
  | [] => []
  | [w] => w
  | w :: v :: ws => w ++ 32 :: joinSp (v :: ws)

/-- `Employee._normalize_name` (src/v2/database/models.py, lines 18-21):
`' '.join(part.capitalize() for part in name.split())`. -/
def normalize_name (s : Str) : Str :=
  joinSp ((pySplit s).map capitalizeTok)

/-! ## Gender normalization -/

/-- The stored string "Male". -/
def Male : Str := [77, 97, 108, 101]

/-- The stored string "Female". -/
def Female : Str := [70, 101, 109, 97, 108, 101]

/-- The documented male inputs, already lower-cased: "м", "m", "male", "1". -/
def maleInputs : List Str := [[1084], [109], [109, 97, 108, 101], [49]]

/-- The documented female inputs, already lower-cased: "ж", "f", "female", "2". -/
def femaleInputs : List Str := [[1078], [102], [102, 101, 109, 97, 108, 101], [50]]

/-- `Employee._normalize_gender` (src/v2/database/models.py, lines 23-31):
lower-case the input, match against the two documented sets, raise
`ValueError` (modelled as `none`) otherwise. -/
def normalize_gender (g : Str) : Option Str :=
  let gl := lowerStr g
  if gl ∈ maleInputs then some Male
  else if gl ∈ femaleInputs then some Female
  else none

/-- The v1/v3 gender rule (src/v1/employee_db.py line 70 and
src/v3/main.py line 76):
`'Male' if gender.lower() in ('м', 'm', 'male', '1') else 'Female'`. -/
def normalizeGenderV1 (g : Str) : Str :=
  if lowerStr g ∈ maleInputs then Male else Female

/-! ## Dates, parsing and age -/

/-- A calendar date as Python `datetime.date` stores it. -/
structure PyDate where
  year : Nat
  month : Nat
  day : Nat
deriving DecidableEq, Repr

/-- Gregorian leap-year rule, as in Python `calendar.isleap`. -/
def isLeapYear (y : Nat) : Bool :=
  y % 4 = 0 && (y % 100 ≠ 0 || y % 400 = 0)

/-- Number of days of month `m` in year `y`. -/
def daysInMonth (y m : Nat) : Nat :=
  if m = 2 then (if isLeapYear y then 29 else 28)
  else if m = 4 ∨ m = 6 ∨ m = 9 ∨ m = 11 then 30
  else 31

/-- ASCII digit test. -/
def isDigit (c : Nat) : Bool := 48 ≤ c && c ≤ 57

/-- Numeric value of a string of ASCII digits. -/
def digitsToNat (s : Str) : Nat := s.foldl (fun a c => a * 10 + (c - 48)) 0

/-- Split on the character `-` (codepoint 45), keeping empty chunks, as
Python regex alternation over the `-`-separated fields does. -/
def chunksDash : Str → Str × List Str
  | [] => ([], [])
  | c :: cs =>
    let r := chunksDash cs
    if c = 45 then ([], r.1 :: r.2) else (c :: r.1, r.2)

/-- All `-`-separated fields of a string. -/
def splitDash (s : Str) : List Str := (chunksDash s).1 :: (chunksDash s).2

/-- Python `_strptime` field pattern for `%Y`: exactly four digits. -/
def validYearField (p : Str) : Bool := p.length = 4 && p.all isDigit

/-- `%m` field pattern `1[0-2]|0[1-9]|[1-9]`: one or two digits whose value
is 1..12. -/
def validMonthField (p : Str) : Bool :=
  p.all isDigit && decide (1 ≤ p.length) && decide (p.length ≤ 2) &&
    decide (1 ≤ digitsToNat p) && decide (digitsToNat p ≤ 12)

/-- `%d` field pattern `3[01]|[12]\d|0[1-9]|[1-9]`: one or two digits whose
value is 1..31. -/
def validDayField (p : Str) : Bool :=
  p.all isDigit && decide (1 ≤ p.length) && decide (p.length ≤ 2) &&
    decide (1 ≤ digitsToNat p) && decide (digitsToNat p ≤ 31)

/-- Model of `datetime.strptime(s, '%Y-%m-%d')` followed by the
`datetime.date` constructor checks (year at least 1, day within the
month); `none` exactly where Python raises `ValueError`. -/
def parse_birth_date (s : Str) : Option PyDate :=
  match splitDash s with
  | [y, m, d] =>
    if validYearField y && validMonthField m && validDayField d then
      if 1 ≤ digitsToNat y && digitsToNat d ≤ daysInMonth (digitsToNat y) (digitsToNat m)
      then some ⟨digitsToNat y, digitsToNat m, digitsToNat d⟩
      else none
    else none
  | _ => none

/-- `Employee.calculate_age` (src/v2/database/models.py, lines 33-39), the
current date passed explicitly; the Python tuple comparison
`(today.month, today.day) < (birth.month, birth.day)` is lexicographic. -/
def calculate_age (today birth : PyDate) : Int :=
  let age : Int := (today.year : Int) - (birth.year : Int)
  if today.month < birth.month ∨ (today.month = birth.month ∧ today.day < birth.day)
  then age - 1 else age

/-- The v1/v3 SQL age expression (src/v1/employee_db.py lines 100-101):
`(strftime('%Y','now') - strftime('%Y',birth_date)) -
 (strftime('%m-%d','now') < strftime('%m-%d',birth_date))`; the string
comparison of zero-padded "MM-DD" fields coincides with the lexicographic
order on (month, day). -/
def sqlAge (today birth : PyDate) : Int :=
  ((today.year : Int) - (birth.year : Int)) -
    (if today.month < birth.month ∨ (today.month = birth.month ∧ today.day < birth.day)
     then 1 else 0)

/-- The spec's age rule, stated from its words: whole-year difference,
decremented by one exactly when today's (month, day) precedes the birth
(month, day). -/
def ageSpec (today birth : PyDate) : Int :=
  ((today.year : Int) - (birth.year : Int)) -
    (if today.month < birth.month ∨ (today.month = birth.month ∧ today.day < birth.day)
     then 1 else 0)

/-! ## Rows, table state and the operations -/

/-- One row of the `employees` table (the autoincrement id is immaterial
to every claim and omitted; valid stored dates are kept parsed). -/
structure EmployeeRow where
  full_name : Str
  birth_date : PyDate
  gender : Str
deriving DecidableEq, Repr

/-- The `employees` table contents, in insertion order. -/
abbrev DBState := List EmployeeRow

/-- `EmployeeDB.add_employee` (src/v1/employee_db.py, lines 63-88):
validate the date format, apply the v1 gender rule, insert; the flag is
the returned success value. -/
def add_employee (st : DBState) (full_name birth_date gender : Str) :
    Bool × DBState :=
  match parse_birth_date birth_date with
  | none => (false, st)
  | some d => (true, st ++ [⟨full_name, d, normalizeGenderV1 gender⟩])

/-- `Employee.__post_init__` (src/v2/database/models.py, lines 14-16):
normalize the name and the gender, propagating the gender
`ValueError` as `none`. -/
def Employee.make (full_name : Str) (birth : PyDate) (gender : Str) :
    Option EmployeeRow :=
  match normalize_gender gender with
  | none => none
  | some g => some ⟨normalize_name full_name, birth, g⟩

/-- v2 `EmployeeManager.add_employee` (src/v2/core/manager.py, lines
59-98): parse the date, build the validated `Employee`, insert; `none`
models the raised `ValueError`. -/
def add_employee_v2 (st : DBState) (full_name birth_date gender : Str) :
    Option DBState :=
  match parse_birth_date birth_date with
  | none => none
  | some d =>
    match Employee.make full_name d gender with
    | none => none
    | some e => some (st ++ [e])

/-- v3 `create_employee` (src/v3/main.py, lines 72-88): the HTTP status
code and the resulting table; `dbFail` models an exception raised by the
database layer during the insert. -/
def create_employee (st : DBState) (full_name birth_date gender : Str)
    (dbFail : Bool) : Nat × DBState :=
  match parse_birth_date birth_date with
  | none => (400, st)
  | some d =>
    if dbFail then (500, st)
    else (201, st ++ [⟨full_name, d, normalizeGenderV1 gender⟩])

/-! ## The filter query -/

/-- SQLite `full_name LIKE 'F%'`: LIKE is case-insensitive on ASCII, so
the pattern accepts a first character `F` (70) or `f` (102). -/
def likeF : Str → Bool
  | [] => false
  | c :: _ => c = 70 || c = 102

/-- The filter query of every version (v1 `EmployeeDB.query_male_f`, v2
`get_employees_by_gender_and_name_start('Male', 'F')`, v3
`GET /employees/male-f/`): `WHERE gender = 'Male' AND full_name LIKE 'F%'`. -/
def query_male_f (st : DBState) : DBState :=
  st.filter (fun r => decide (r.gender = Male) && likeF r.full_name)

/-- The filter as the spec words it: case-SENSITIVE prefix match on the
capital letter `F` (70), for comparison with `query_male_f`. -/
def querySpecCaseSensitive (st : DBState) : DBState :=
  st.filter (fun r =>
    decide (r.gender = Male) &&
      (match r.full_name with
       | [] => false
       | c :: _ => decide (c = 70)))

/-! ## Indexes and the optimize operation -/

/-- A column expression an index of this program can mention. -/
inductive IdxCol where
  | gender
  | fullName
  | birthDate
  | firstLetter
deriving DecidableEq, Repr

/-- An index: its name and its column expressions. -/
structure IndexDef where
  name : String
  cols : List IdxCol
deriving DecidableEq, Repr

/-- The three indexes of v1 `optimize_database`
(src/v1/employee_db.py, lines 167-196). -/
def v1Indexes : List IndexDef :=
  [⟨"idx_gender_lastname", [.gender, .firstLetter]⟩,
   ⟨"idx_gender", [.gender]⟩,
   ⟨"idx_first_letter", [.firstLetter]⟩]

/-- The three indexes of v2 `Database.create_indexes`
(src/v2/database/database.py, lines 256-282). -/
def v2Indexes : List IndexDef :=
  [⟨"idx_gender_fname", [.gender, .firstLetter]⟩,
   ⟨"idx_full_name", [.fullName]⟩,
   ⟨"idx_birth_date", [.birthDate]⟩]

/-- The three indexes of v3 `optimize_database`
(src/v3/main.py, lines 164-172). -/
def v3Indexes : List IndexDef :=
  [⟨"idx_gender_lastname", [.gender, .firstLetter]⟩,
   ⟨"idx_gender", [.gender]⟩,
   ⟨"idx_first_letter", [.firstLetter]⟩]

/-- `CREATE INDEX IF NOT EXISTS`: add the index unless one with the same
name already exists. -/
def createIndexIfNotExists (idxs : List IndexDef) (i : IndexDef) : List IndexDef :=
  if idxs.any (fun j => j.name = i.name) then idxs else idxs ++ [i]

/-- v1 `EmployeeDB.optimize_database` acting on the index catalogue. -/
def optimize_database (idxs : List IndexDef) : List IndexDef :=
  v1Indexes.foldl createIndexIfNotExists idxs

/-- v2 `Database.create_indexes` acting on the index catalogue. -/
def create_indexes (idxs : List IndexDef) : List IndexDef :=
  v2Indexes.foldl createIndexIfNotExists idxs

/-- v3 `optimize_database` acting on the index catalogue. -/
def optimizeV3 (idxs : List IndexDef) : List IndexDef :=
  v3Indexes.foldl createIndexIfNotExists idxs

/-- One observable step of an optimize routine: a timed run of the full
filter query (v1 `db.query_male_f()`, v2
`get_employees_by_gender_and_name_start('Male', 'F')`); a timed run of the
v3 existence probe `SELECT 1 FROM employees WHERE gender = 'Male' AND
full_name LIKE 'F%' LIMIT 1`, which stops at the first matching row and is
not the filter query; or the creation of one index. -/
inductive OptStep where
  | measureQuery
  | measureProbe
  | createIdx (i : IndexDef)
deriving DecidableEq, Repr

/-- v1 CLI mode 6 (src/v1/app.py, lines 70-91): time the filter query,
create the three indexes, time the filter query again. -/
def optimizeTraceV1 : List OptStep :=
  [.measureQuery,
   .createIdx ⟨"idx_gender_lastname", [.gender, .firstLetter]⟩,
   .createIdx ⟨"idx_gender", [.gender]⟩,
   .createIdx ⟨"idx_first_letter", [.firstLetter]⟩,
   .measureQuery]

/-- v2 `EmployeeManager.optimize_and_test` (src/v2/core/manager.py, lines
181-216): time the filter query, `create_indexes`, time it again. -/
def optimizeTraceV2 : List OptStep :=
  [.measureQuery,
   .createIdx ⟨"idx_gender_fname", [.gender, .firstLetter]⟩,
   .createIdx ⟨"idx_full_name", [.fullName]⟩,
   .createIdx ⟨"idx_birth_date", [.birthDate]⟩,
   .measureQuery]

/-- v3 `POST /employees/optimize/` (src/v3/main.py, lines 155-188): time
the `SELECT 1 ... LIMIT 1` probe (lines 159-161), create the three
indexes, time the probe again (lines 176-178); the filter query itself is
never run here. -/
def optimizeTraceV3 : List OptStep :=
  [.measureProbe,
   .createIdx ⟨"idx_gender_lastname", [.gender, .firstLetter]⟩,
   .createIdx ⟨"idx_gender", [.gender]⟩,
   .createIdx ⟨"idx_first_letter", [.firstLetter]⟩,
   .measureProbe]

/-- The column lists of the indexes a trace creates, in order. -/
def createdCols (t : List OptStep) : List (List IdxCol) :=
  t.filterMap (fun s => match s with
    | .measureQuery => none
    | .measureProbe => none
    | .createIdx i => some i.cols)

/-- The index column lists claim C4 asserts for every version: compound
(gender, first letter), gender alone, first letter alone. -/
def claimedCols : List (List IdxCol) :=
  [[.gender, .firstLetter], [.gender], [.firstLetter]]

/-! ## Bulk generation -/

/-- Decimal digits of a number, most significant first (auxiliary, with
fuel equal to the number itself, plenty since `n / 10` shrinks fast). -/
def natDigitsAux : Nat → Nat → Str
  | 0, _ => []
  | fuel + 1, n => if n = 0 then [] else natDigitsAux fuel (n / 10) ++ [48 + n % 10]

/-- Decimal representation of a number as a digit string. -/
def natDigits (n : Nat) : Str := if n = 0 then [48] else natDigitsAux n n

/-- The random draws v1 `generate_test_data` consumes, as oracle streams:
`choice(['Male', 'Female'])`, the two `randint(1, 1000)` name numbers and
the birth dates (`date.today() - timedelta(days=randint(18*365, 65*365))`,
modelled as a date stream since no claim constrains the value). -/
structure RandV1 where
  genderMale : Nat → Bool
  firstNum : Nat → Nat
  lastNum : Nat → Nat
  birthDate : Nat → PyDate
  specialBirthDate : Nat → PyDate

/-- One random v1 row: `f"Lastname{...} Name{...}"` with the drawn gender. -/
def v1MainRow (rs : RandV1) (i : Nat) : EmployeeRow :=
  ⟨[76, 97, 115, 116, 110, 97, 109, 101] ++ natDigits (rs.lastNum i) ++
     32 :: ([78, 97, 109, 101] ++ natDigits (rs.firstNum i)),
   rs.birthDate i,
   if rs.genderMale i then Male else Female⟩

/-- One special v1 row: `f"Fake_{i} Surname"`, gender `'Male'`. -/
def v1SpecialRow (rs : RandV1) (i : Nat) : EmployeeRow :=
  ⟨[70, 97, 107, 101, 95] ++ natDigits i ++ [32, 83, 117, 114, 110, 97, 109, 101],
   rs.specialBirthDate i,
   Male⟩

/-- `EmployeeDB.generate_test_data` (src/v1/employee_db.py, lines 112-145):
insert `count` random rows then `special` guaranteed-matching rows; the
first component is the returned value `count + special`. -/
def generate_test_data (rs : RandV1) (st : DBState) (count special : Nat) :
    Nat × DBState :=
  (count + special,
   st ++ (List.range count).map (v1MainRow rs) ++
     (List.range special).map (v1SpecialRow rs))

/-- The random draws v2 `generate_test_data` consumes: the gender choice
and the Faker name and date-of-birth streams. -/
structure RandV2 where
  genderMale : Nat → Bool
  firstMale : Nat → Str
  firstFemale : Nat → Str
  lastName : Nat → Str
  birthDate : Nat → PyDate
  specialLast : Nat → Str
  specialFirst : Nat → Str
  specialBirthDate : Nat → PyDate

/-- One random v2 batch entry, validated through `Employee` as
`batch_add_employees` does. -/
def v2MainEntry (rs : RandV2) (i : Nat) : Option EmployeeRow :=
  Employee.make
    (rs.lastName i ++ 32 :: (if rs.genderMale i then rs.firstMale i else rs.firstFemale i))
    (rs.birthDate i)
    (if rs.genderMale i then Male else Female)

/-- One special v2 entry: `f"Fake_{fake.last_name()} {fake.first_name_male()}"`,
gender `'Male'`, validated through `Employee`. -/
def v2SpecialEntry (rs : RandV2) (i : Nat) : Option EmployeeRow :=
  Employee.make
    ([70, 97, 107, 101, 95] ++ rs.specialLast i ++ 32 :: rs.specialFirst i)
    (rs.specialBirthDate i)
    Male

/-- v2 `EmployeeManager.generate_test_data` (src/v2/core/manager.py, lines
218-280): `count // 10000` batches of 10000 random rows, then `special`
guaranteed rows; every row is validated through `Employee` and invalid
ones are dropped.  The first component is the returned statistics
(total added, special added). -/
def generate_test_data_v2 (rs : RandV2) (st : DBState) (count special : Nat) :
    (Nat × Nat) × DBState :=
  let mains := (List.range (count / 10000 * 10000)).filterMap (v2MainEntry rs)
  let specials := (List.range special).filterMap (v2SpecialEntry rs)
  ((mains.length + specials.length, specials.length), st ++ mains ++ specials)

/-! ## The public operations as a transition system -/

/-- A public operation of any of the three versions. -/
inductive Op where
  | addV1 (full_name birth_date gender : Str)
  | addV2 (full_name birth_date gender : Str)
  | addV3 (full_name birth_date gender : Str) (dbFail : Bool)
  | genV1 (rs : RandV1) (count special : Nat)
  | genV2 (rs : RandV2) (count special : Nat)
  | listAll
  | filterMaleF
  | optimize

/-- Effect of one public operation on the `employees` table (list, filter
and optimize read or touch only the index catalogue, never the rows; a
failing add leaves the table unchanged). -/
def step (st : DBState) : Op → DBState
  | .addV1 n b g => (add_employee st n b g).2
  | .addV2 n b g => (add_employee_v2 st n b g).getD st
  | .addV3 n b g f => (create_employee st n b g f).2
  | .genV1 rs c s => (generate_test_data rs st c s).2
  | .genV2 rs c s => (generate_test_data_v2 rs st c s).2
  | .listAll => st
  | .filterMaleF => st
  | .optimize => st

/-- The table contents reached by a sequence of public operations from the
freshly created empty table. -/
def run (ops : List Op) : DBState := ops.foldl step []

/-- The gender invariant of claim C9. -/
def GenderOK (st : DBState) : Prop :=
  ∀ r ∈ st, r.gender = Male ∨ r.gender = Female

/-! ## The v1 list operation -/

/-- Two rows agreeing on the `GROUP BY full_name, birth_date` key. -/
def sameKey (a b : EmployeeRow) : Bool :=
  decide (a.full_name = b.full_name) && decide (a.birth_date = b.birth_date)

/-- SQL `GROUP BY full_name, birth_date`: one representative row per
distinct key, in scan order. -/
def groupByKey (st : DBState) : DBState :=
  st.foldl (fun acc r => if acc.any (fun x => sameKey x r) then acc else acc ++ [r]) []

/-- SQLite BINARY collation on text: lexicographic order on codepoints. -/
def strLe : Str → Str → Bool
  | [], _ => true
  | _ :: _, [] => false
  | x :: xs, y :: ys => if x < y then true else if x = y then strLe xs ys else false

/-- `ORDER BY full_name` comparison between rows. -/
def nameLe (a b : EmployeeRow) : Prop := strLe a.full_name b.full_name = true

instance : DecidableRel nameLe := fun a b =>
  Bool.decEq (strLe a.full_name b.full_name) true

/-- v1 `EmployeeDB.get_all_employees` (src/v1/employee_db.py, lines
90-110): `GROUP BY full_name, birth_date ORDER BY full_name`. -/
def get_all_employees (st : DBState) : DBState :=
  List.insertionSort nameLe (groupByKey st)

/-- Two rows differing on the `GROUP BY` key. -/
def keyNe (a b : EmployeeRow) : Prop :=
  ¬ (a.full_name = b.full_name ∧ a.birth_date = b.birth_date)

/-- No two indexes of the catalogue share a name. -/
def NamesDistinct (s : List IndexDef) : Prop :=
  s.Pairwise (fun a b => a.name ≠ b.name)

/-- A concrete v2 random stream, for evaluating the generator at
concrete parameters. -/
def constRandV2 : RandV2 :=
  ⟨fun _ => true, fun _ => [97], fun _ => [98], fun _ => [99],
   fun _ => ⟨1990, 1, 1⟩, fun _ => [97], fun _ => [98], fun _ => ⟨1990, 1, 1⟩⟩

/- ### Case-mapping lemmas -/

theorem upperChar_idem (c : Nat) : upperChar (upperChar c) = upperChar c := by
  unfold upperChar
  split_ifs <;> omega

theorem lowerChar_idem (c : Nat) : lowerChar (lowerChar c) = lowerChar c := by
  unfold lowerChar
  split_ifs <;> omega

theorem isWs_upperChar {c : Nat} (h : isWs c = false) : isWs (upperChar c) = false := by
  unfold upperChar
  simp only [isWs, Bool.or_eq_false_iff, decide_eq_false_iff_not] at h ⊢
  split_ifs <;> omega

theorem isWs_lowerChar {c : Nat} (h : isWs c = false) : isWs (lowerChar c) = false := by
  unfold lowerChar
  simp only [isWs, Bool.or_eq_false_iff, decide_eq_false_iff_not] at h ⊢
  split_ifs <;> omega

/- ### split / join round-trip -/

theorem chunks_word (w l : Str) (h : ∀ c ∈ w, isWs c = false) :
    chunks (w ++ l) = (w ++ (chunks l).1, (chunks l).2) := by
  induction w with
  | nil => simp
  | cons c cs ih =>
    have hc : isWs c = false := h c (by simp)
    have ih2 := ih (fun d hd => h d (by simp [hd]))
    simp [chunks, ih2, hc]

theorem chunks_space (l : Str) :
    chunks (32 :: l) = ([], (chunks l).1 :: (chunks l).2) := by
  simp [chunks, isWs]

/-- A token list whose members are nonempty and whitespace-free is
recovered exactly by `pySplit` after `joinSp`. -/
theorem pySplit_joinSp :
    ∀ ws : List Str, (∀ w ∈ ws, w ≠ [] ∧ ∀ c ∈ w, isWs c = false) →
      pySplit (joinSp ws) = ws
  | [], _ => by simp [joinSp, pySplit, allChunks, chunks]
  | [w], h => by
    obtain ⟨hne, hws⟩ := h w (by simp)
    have : chunks (w ++ []) = (w ++ (chunks []).1, (chunks []).2) :=
      chunks_word w [] hws
    simp [chunks] at this
    simp [joinSp, pySplit, allChunks, this, hne]
  | w :: v :: ws, h => by
    obtain ⟨hne, hws⟩ := h w (by simp)
    have hrest := pySplit_joinSp (v :: ws) (fun u hu => h u (by simp [hu]))
    have hj : joinSp (w :: v :: ws) = w ++ 32 :: joinSp (v :: ws) := rfl
    have hc : chunks (w ++ 32 :: joinSp (v :: ws)) =
        (w ++ (chunks (32 :: joinSp (v :: ws))).1,
         (chunks (32 :: joinSp (v :: ws))).2) :=
      chunks_word w _ hws
    rw [chunks_space] at hc
    simp at hc
    simp only [pySplit, allChunks] at hrest ⊢
    rw [hj, hc]
    simpa [hne] using hrest

/-- Every chunk produced by `chunks` is whitespace-free. -/
theorem chunks_noWs (s : Str) :
    (∀ c ∈ (chunks s).1, isWs c = false) ∧
    (∀ w ∈ (chunks s).2, ∀ c ∈ w, isWs c = false) := by
  induction s with
  | nil => simp [chunks]
  | cons c cs ih =>
    by_cases hc : isWs c = true
    · constructor
      · intro d hd
        simp [chunks, hc] at hd
      · intro w hw d hd
        simp [chunks, hc] at hw
        rcases hw with hw | hw
        · exact ih.1 d (hw ▸ hd)
        · exact ih.2 w hw d hd
    · rw [Bool.not_eq_true] at hc
      constructor
      · intro d hd
        simp [chunks, hc] at hd
        rcases hd with hd | hd
        · exact hd ▸ hc
        · exact ih.1 d hd
      · intro w hw d hd
        simp [chunks, hc] at hw
        exact ih.2 w hw d hd

theorem pySplit_tokens (s : Str) :
    ∀ w ∈ pySplit s, w ≠ [] ∧ ∀ c ∈ w, isWs c = false := by
  intro w hw
  simp only [pySplit, List.mem_filter, decide_eq_true_eq] at hw
  refine ⟨hw.2, ?_⟩
  intro c hc
  have hmem : w = (chunks s).1 ∨ w ∈ (chunks s).2 := by
    simpa [allChunks] using hw.1
  rcases hmem with hw1 | hw1
  · exact (chunks_noWs s).1 c (hw1 ▸ hc)
  · exact (chunks_noWs s).2 w hw1 c hc

theorem capitalizeTok_ne_nil {w : Str} (h : w ≠ []) : capitalizeTok w ≠ [] := by
  cases w with
  | nil => exact absurd rfl h
  | cons c cs => simp [capitalizeTok]

theorem capitalizeTok_noWs {w : Str} (h : ∀ c ∈ w, isWs c = false) :
    ∀ c ∈ capitalizeTok w, isWs c = false := by
  cases w with
  | nil => simp [capitalizeTok]
  | cons c cs =>
    intro d hd
    simp [capitalizeTok] at hd
    rcases hd with hd | ⟨e, he, hd⟩
    · exact hd ▸ isWs_upperChar (h c (by simp))
    · exact hd ▸ isWs_lowerChar (h e (by simp [he]))

theorem capitalizeTok_idem (w : Str) :
    capitalizeTok (capitalizeTok w) = capitalizeTok w := by
  cases w with
  | nil => rfl
  | cons c cs =>
    simp only [capitalizeTok, upperChar_idem, List.map_map, List.cons.injEq, true_and]
    exact List.map_congr_left (fun a _ => lowerChar_idem a)

/-- **C7.** Name normalization is idempotent. -/
theorem normalize_name_idem (s : Str) :
    normalize_name (normalize_name s) = normalize_name s := by
  unfold normalize_name
  have htok : ∀ w ∈ (pySplit s).map capitalizeTok,
      w ≠ [] ∧ ∀ c ∈ w, isWs c = false := by
    intro w hw
    simp only [List.mem_map] at hw
    obtain ⟨u, hu, rfl⟩ := hw
    obtain ⟨hne, hws⟩ := pySplit_tokens s u hu
    exact ⟨capitalizeTok_ne_nil hne, capitalizeTok_noWs hws⟩
  rw [pySplit_joinSp _ htok, List.map_map]
  congr 1
  exact List.map_congr_left (fun w _ => capitalizeTok_idem w)

/- ### Age computation -/

/-- **C5.** The computed age is the whole-year difference decremented by
one exactly when today's (month, day) precedes the birth (month, day), in
the v2 Python code and in the v1/v3 SQL expression alike; a birth exactly
30 years ago with today's month and day gives 30, and a birth whose
anniversary is tomorrow (one day later in the same month) gives 29. -/
theorem calculate_age_spec :
    (∀ today birth : PyDate, calculate_age today birth = ageSpec today birth) ∧
    (∀ today birth : PyDate, sqlAge today birth = ageSpec today birth) ∧
    (∀ t : PyDate, 30 ≤ t.year →
      calculate_age t ⟨t.year - 30, t.month, t.day⟩ = 30) ∧
    (∀ y m d : Nat, 30 ≤ y → d + 1 ≤ daysInMonth (y - 30) m →
      calculate_age ⟨y, m, d⟩ ⟨y - 30, m, d + 1⟩ = 29) := by
  refine ⟨?_, ?_, ?_, ?_⟩
  · intro today birth
    simp only [calculate_age, ageSpec]
    split_ifs <;> ring
  · intro today birth
    rfl
  · intro t h
    simp only [calculate_age]
    split_ifs with hc
    · exact absurd hc (by omega)
    · omega
  · intro y m d h _
    simp only [calculate_age]
    split_ifs with hc
    · omega
    · exfalso
      apply hc
      right
      exact ⟨by trivial, by omega⟩

/-- Witness for C5 at today = 2026-10-12. -/
theorem calculate_age_spec_witness :
    calculate_age ⟨2026, 10, 12⟩ ⟨1996, 10, 12⟩ = 30 ∧
    calculate_age ⟨2026, 10, 12⟩ ⟨1996, 10, 13⟩ = 29 := by
  have h := calculate_age_spec
  constructor
  · have h30 := h.2.2.1 ⟨2026, 10, 12⟩ (by norm_num)
    simpa using h30
  · have h29 := h.2.2.2 2026 10 12 (by norm_num) (by decide)
    simpa using h29

/- ### The filter query -/

theorem likeF_iff (s : Str) :
    likeF s = true ↔ (s.head? = some 70 ∨ s.head? = some 102) := by
  cases s with
  | nil => simp [likeF]
  | cons c cs => simp [likeF]

/-- **C1 counterexample.** A stored male row whose name starts with
lowercase `f` (102) IS returned by the filter query (SQLite LIKE is
ASCII-case-insensitive), though the claim's case-sensitive reading
excludes it. -/
theorem query_male_f_counterexample :
    query_male_f [⟨[102, 101, 100], ⟨1990, 5, 15⟩, Male⟩] =
      [⟨[102, 101, 100], ⟨1990, 5, 15⟩, Male⟩] ∧
    querySpecCaseSensitive [⟨[102, 101, 100], ⟨1990, 5, 15⟩, Male⟩] = [] := by
  decide

/-- **C1 (amended).** The filter query returns exactly the stored rows
whose gender is `"Male"` and whose full name starts with `F` (70) or `f`
(102): the prefix match is ASCII-case-insensitive. -/
theorem query_male_f_characterization (st : DBState) (r : EmployeeRow) :
    r ∈ query_male_f st ↔
      r ∈ st ∧ r.gender = Male ∧
        (r.full_name.head? = some 70 ∨ r.full_name.head? = some 102) := by
  simp only [query_male_f, List.mem_filter, Bool.and_eq_true, decide_eq_true_eq,
    likeF_iff, and_assoc]

/- ### The optimize operation -/

/-- **C4 counterexample.** The claim fails twice: v2 `create_indexes` does
not create the claimed index set — among the three indexes it creates are
single indexes on `full_name` and `birth_date`, not on `gender` and on the
first letter — and v3's optimize endpoint never times the filter query:
no step of its trace is a timed filter-query run (it times the
`SELECT 1 ... LIMIT 1` existence probe instead). -/
theorem optimize_indexes_counterexample :
    createdCols optimizeTraceV2 =
      [[IdxCol.gender, IdxCol.firstLetter], [IdxCol.fullName], [IdxCol.birthDate]] ∧
    [IdxCol.birthDate] ∈ createdCols optimizeTraceV2 ∧
    [IdxCol.birthDate] ∉ claimedCols ∧
    optimizeTraceV3.all (fun s => decide (s ≠ OptStep.measureQuery)) = true := by
  decide

/-- **C4 (amended).** v1 and v2 measure the filter query immediately
before and immediately after creating their three indexes; v3 instead
measures the `SELECT 1 ... LIMIT 1` existence probe of the filter
condition immediately before and after.  v1 and v3 create exactly the
claimed indexes (compound (gender, first letter), gender alone, first
letter alone), while v2 creates the compound index plus single indexes on
`full_name` and on `birth_date`. -/
theorem optimize_trace_spec :
    createdCols optimizeTraceV1 = claimedCols ∧
    createdCols optimizeTraceV3 = claimedCols ∧
    createdCols optimizeTraceV2 =
      [[IdxCol.gender, IdxCol.firstLetter], [IdxCol.fullName], [IdxCol.birthDate]] ∧
    (∀ t ∈ [optimizeTraceV1, optimizeTraceV2],
      t.head? = some OptStep.measureQuery ∧
      t.getLast? = some OptStep.measureQuery ∧
      (t.drop 1).dropLast.all (fun s => match s with
        | OptStep.createIdx _ => true
        | _ => false)) ∧
    (optimizeTraceV3.head? = some OptStep.measureProbe ∧
     optimizeTraceV3.getLast? = some OptStep.measureProbe ∧
     (optimizeTraceV3.drop 1).dropLast.all (fun s => match s with
        | OptStep.createIdx _ => true
        | _ => false)) := by
  decide

/- ### Index creation -/

theorem createIndex_of_name_mem {s : List IndexDef} {i : IndexDef}
    (h : ∃ j ∈ s, j.name = i.name) : createIndexIfNotExists s i = s := by
  have hb : (s.any fun j => decide (j.name = i.name)) = true := by
    simp only [List.any_eq_true, decide_eq_true_eq]
    exact h
  simp [createIndexIfNotExists, hb]

theorem mem_createIndex {s : List IndexDef} (i : IndexDef) {j : IndexDef}
    (h : j ∈ s) : j ∈ createIndexIfNotExists s i := by
  unfold createIndexIfNotExists
  split_ifs
  · exact h
  · exact List.mem_append_left _ h

theorem createIndex_name_mem (s : List IndexDef) (i : IndexDef) :
    ∃ j ∈ createIndexIfNotExists s i, j.name = i.name := by
  unfold createIndexIfNotExists
  split_ifs with h
  · simp only [List.any_eq_true, decide_eq_true_eq] at h
    exact h
  · exact ⟨i, by simp, rfl⟩

theorem foldl_create_mem {L s : List IndexDef} {j : IndexDef}
    (h : j ∈ s) : j ∈ L.foldl createIndexIfNotExists s := by
  induction L generalizing s with
  | nil => exact h
  | cons a L ih => exact ih (mem_createIndex a h)

theorem foldl_create_names (L : List IndexDef) (s : List IndexDef) :
    ∀ i ∈ L, ∃ j ∈ L.foldl createIndexIfNotExists s, j.name = i.name := by
  induction L generalizing s with
  | nil => intro i hi; cases hi
  | cons a L ih =>
    intro i hi
    rcases List.mem_cons.mp hi with rfl | hi2
    · obtain ⟨j, hj, hn⟩ := createIndex_name_mem s i
      refine ⟨j, ?_, hn⟩
      show j ∈ List.foldl createIndexIfNotExists (createIndexIfNotExists s i) L
      exact foldl_create_mem hj
    · exact ih (createIndexIfNotExists s a) i hi2

theorem foldl_create_noop {L s : List IndexDef}
    (h : ∀ i ∈ L, ∃ j ∈ s, j.name = i.name) :
    L.foldl createIndexIfNotExists s = s := by
  induction L with
  | nil => rfl
  | cons a L ih =>
    have ha := createIndex_of_name_mem (h a (by simp))
    show L.foldl createIndexIfNotExists (createIndexIfNotExists s a) = s
    rw [ha]
    exact ih (fun i hi => h i (by simp [hi]))

theorem foldl_create_idem (L s : List IndexDef) :
    L.foldl createIndexIfNotExists (L.foldl createIndexIfNotExists s) =
      L.foldl createIndexIfNotExists s :=
  foldl_create_noop (foldl_create_names L s)

theorem createIndex_namesDistinct {s : List IndexDef} {i : IndexDef}
    (h : NamesDistinct s) : NamesDistinct (createIndexIfNotExists s i) := by
  unfold createIndexIfNotExists
  split_ifs with hc
  · exact h
  · unfold NamesDistinct at h ⊢
    rw [List.pairwise_append]
    refine ⟨h, List.pairwise_singleton _ _, ?_⟩
    intro a ha b hb he
    simp only [List.mem_singleton] at hb
    subst hb
    exact hc (List.any_eq_true.mpr ⟨a, ha, decide_eq_true he⟩)

theorem foldl_create_namesDistinct {L s : List IndexDef}
    (h : NamesDistinct s) : NamesDistinct (L.foldl createIndexIfNotExists s) := by
  induction L generalizing s with
  | nil => exact h
  | cons a L ih => exact ih (createIndex_namesDistinct h)

/-- **C8.** Optimize is idempotent in every version: a second invocation
leaves the index catalogue exactly as the first left it, and a catalogue
with pairwise-distinct index names stays duplicate-free. -/
theorem optimize_idempotent :
    (∀ idxs, optimize_database (optimize_database idxs) = optimize_database idxs) ∧
    (∀ idxs, create_indexes (create_indexes idxs) = create_indexes idxs) ∧
    (∀ idxs, optimizeV3 (optimizeV3 idxs) = optimizeV3 idxs) ∧
    (∀ idxs, NamesDistinct idxs →
      NamesDistinct (optimize_database idxs) ∧
      NamesDistinct (create_indexes idxs) ∧
      NamesDistinct (optimizeV3 idxs)) := by
  refine ⟨fun idxs => foldl_create_idem _ _, fun idxs => foldl_create_idem _ _,
    fun idxs => foldl_create_idem _ _, fun idxs h =>
      ⟨foldl_create_namesDistinct h, foldl_create_namesDistinct h,
        foldl_create_namesDistinct h⟩⟩

/-- Witness for C8 at the empty catalogue. -/
theorem optimize_idempotent_witness :
    optimize_database (optimize_database []) = optimize_database [] ∧
    NamesDistinct (optimize_database []) := by
  have h := optimize_idempotent
  exact ⟨h.1 [], (h.2.2.2 [] List.Pairwise.nil).1⟩

/- ### The v3 create endpoint -/

/-- **C6.** `POST /employees/` responds 201 and appends exactly one row
when the birth date parses and the insert succeeds, responds 400 storing
nothing exactly when the birth date does not parse, and responds 500
(storing nothing) when the insert itself fails. -/
theorem create_employee_spec (st : DBState) (n b g : Str) (dbFail : Bool) :
    ((create_employee st n b g dbFail).1 = 400 ↔ parse_birth_date b = none) ∧
    (parse_birth_date b = none → (create_employee st n b g dbFail).2 = st) ∧
    ((create_employee st n b g dbFail).1 = 500 ↔
      parse_birth_date b ≠ none ∧ dbFail = true) ∧
    ((create_employee st n b g dbFail).1 = 201 ↔
      parse_birth_date b ≠ none ∧ dbFail = false) ∧
    (∀ d, parse_birth_date b = some d → dbFail = false →
      (create_employee st n b g dbFail).2 = st ++ [⟨n, d, normalizeGenderV1 g⟩]) ∧
    ((create_employee st n b g dbFail).1 ≠ 201 →
      (create_employee st n b g dbFail).2 = st) := by
  cases hp : parse_birth_date b <;> cases dbFail <;>
    simp [create_employee, hp]

/-- Witness for C6: a valid date and a healthy database store one row. -/
theorem create_employee_spec_witness :
    (create_employee [] [73] [49, 57, 57, 48, 45, 48, 53, 45, 49, 53] [109] false).2 =
      [] ++ [⟨[73], ⟨1990, 5, 15⟩, normalizeGenderV1 [109]⟩] ∧
    parse_birth_date [49, 57, 57, 48, 45, 48, 53, 45, 49, 53] = some ⟨1990, 5, 15⟩ := by
  have h := create_employee_spec [] [73] [49, 57, 57, 48, 45, 48, 53, 45, 49, 53] [109] false
  have hp : parse_birth_date [49, 57, 57, 48, 45, 48, 53, 45, 49, 53] =
      some ⟨1990, 5, 15⟩ := by decide
  exact ⟨h.2.2.2.2.1 ⟨1990, 5, 15⟩ hp rfl, hp⟩

/- ### Gender normalization -/

/-- **C2 counterexample.** v1 `add_employee` and v3 `create_employee`
accept the undocumented gender "x" (codepoint 120) with a valid date:
instead of failing with a validation error they succeed and store the row
with gender "Female". -/
theorem add_employee_gender_counterexample :
    add_employee [] [73] [49, 57, 57, 48, 45, 48, 53, 45, 49, 53] [120] =
      (true, [⟨[73], ⟨1990, 5, 15⟩, Female⟩]) ∧
    create_employee [] [73] [49, 57, 57, 48, 45, 48, 53, 45, 49, 53] [120] false =
      (201, [⟨[73], ⟨1990, 5, 15⟩, Female⟩]) := by
  decide

/-- **C2 (amended).** v2 gender normalization is total and idempotent on
the documented input sets (case-insensitive {м, m, male, 1} → "Male",
{ж, f, female, 2} → "Female") and fails with a validation error on every
other input, the v2 add then storing nothing; v1 and v3 map the male set
to "Male" and every other input — the documented female set included — to
"Female", and with a valid date their add always succeeds, never failing
because of the gender. -/
theorem normalize_gender_spec :
    (∀ g, lowerStr g ∈ maleInputs → normalize_gender g = some Male) ∧
    (∀ g, lowerStr g ∈ femaleInputs → normalize_gender g = some Female) ∧
    (normalize_gender Male = some Male ∧ normalize_gender Female = some Female) ∧
    (∀ g, lowerStr g ∉ maleInputs → lowerStr g ∉ femaleInputs →
      normalize_gender g = none) ∧
    (∀ st n b g, normalize_gender g = none → add_employee_v2 st n b g = none) ∧
    (∀ g, lowerStr g ∈ maleInputs → normalizeGenderV1 g = Male) ∧
    (∀ g, lowerStr g ∉ maleInputs → normalizeGenderV1 g = Female) ∧
    (∀ st n b g d, parse_birth_date b = some d →
      add_employee st n b g = (true, st ++ [⟨n, d, normalizeGenderV1 g⟩])) := by
  refine ⟨?_, ?_, by decide, ?_, ?_, ?_, ?_, ?_⟩
  · intro g hg
    simp only [normalize_gender]
    rw [if_pos hg]
  · intro g hg
    have hm : lowerStr g ∉ maleInputs := by
      simp only [femaleInputs, List.mem_cons, List.not_mem_nil, or_false] at hg
      rcases hg with h | h | h | h <;> rw [h] <;> decide
    simp only [normalize_gender]
    rw [if_neg hm, if_pos hg]
  · intro g h1 h2
    simp only [normalize_gender]
    rw [if_neg h1, if_neg h2]
  · intro st n b g h
    cases hp : parse_birth_date b <;>
      simp [add_employee_v2, Employee.make, hp, h]
  · intro g hg
    simp only [normalizeGenderV1]
    rw [if_pos hg]
  · intro g hg
    simp only [normalizeGenderV1]
    rw [if_neg hg]
  · intro st n b g d hp
    simp [add_employee, hp]

/-- Witness for C2 at concrete inputs: upper-case "MALE" normalizes to
"Male", "x" fails v2 validation and makes the v2 add reject, and "x" falls
through to "Female" under the v1/v3 rule. -/
theorem normalize_gender_spec_witness :
    normalize_gender [77, 65, 76, 69] = some Male ∧
    normalize_gender [120] = none ∧
    add_employee_v2 [] [73] [49, 57, 57, 48, 45, 48, 53, 45, 49, 53] [120] = none ∧
    normalizeGenderV1 [120] = Female ∧
    add_employee [] [73] [49, 57, 57, 48, 45, 48, 53, 45, 49, 53] [109] =
      (true, [] ++ [⟨[73], ⟨1990, 5, 15⟩, normalizeGenderV1 [109]⟩]) := by
  have h := normalize_gender_spec
  have hx : normalize_gender [120] = none :=
    h.2.2.2.1 [120] (by decide) (by decide)
  refine ⟨h.1 [77, 65, 76, 69] (by decide), hx, ?_, ?_, ?_⟩
  · exact h.2.2.2.2.1 [] [73] [49, 57, 57, 48, 45, 48, 53, 45, 49, 53] [120] hx
  · exact h.2.2.2.2.2.2.1 [120] (by decide)
  · exact h.2.2.2.2.2.2.2 [] [73] [49, 57, 57, 48, 45, 48, 53, 45, 49, 53] [109]
      ⟨1990, 5, 15⟩ (by decide)

/- ### Bulk generation -/

theorem length_filterMap_some {α β : Type} (f : α → Option β) (l : List α)
    (h : ∀ a ∈ l, (f a).isSome) : (l.filterMap f).length = l.length := by
  induction l with
  | nil => rfl
  | cons a l ih =>
    have ha := h a (by simp)
    cases hf : f a with
    | none => rw [hf] at ha; cases ha
    | some b =>
      simp [List.filterMap_cons, hf, ih (fun x hx => h x (by simp [hx]))]

theorem Employee_make_male (n : Str) (bd : PyDate) :
    Employee.make n bd Male = some ⟨normalize_name n, bd, Male⟩ := by
  simp [Employee.make, show normalize_gender Male = some Male from by decide]

theorem Employee_make_female (n : Str) (bd : PyDate) :
    Employee.make n bd Female = some ⟨normalize_name n, bd, Female⟩ := by
  simp [Employee.make, show normalize_gender Female = some Female from by decide]

theorem v2MainEntry_isSome (rs : RandV2) (i : Nat) : (v2MainEntry rs i).isSome := by
  unfold v2MainEntry
  cases h : rs.genderMale i <;>
    simp [h, Employee_make_male, Employee_make_female]

theorem v2SpecialEntry_eq (rs : RandV2) (i : Nat) :
    v2SpecialEntry rs i =
      some ⟨normalize_name ([70, 97, 107, 101, 95] ++ rs.specialLast i ++ 32 :: rs.specialFirst i),
        rs.specialBirthDate i, Male⟩ := by
  unfold v2SpecialEntry
  exact Employee_make_male _ _

theorem joinSp_cons (w : Str) (ws : List Str) : ∃ t, joinSp (w :: ws) = w ++ t := by
  cases ws with
  | nil => exact ⟨[], by simp [joinSp]⟩
  | cons v ws => exact ⟨32 :: joinSp (v :: ws), rfl⟩

theorem normalize_name_head (c : Nat) (cs : Str) (h : isWs c = false) :
    ∃ t, normalize_name (c :: cs) = upperChar c :: t := by
  have hch : allChunks (c :: cs) = (c :: (chunks cs).1) :: (chunks cs).2 := by
    simp [allChunks, chunks, h]
  unfold normalize_name pySplit
  rw [hch]
  rw [List.filter_cons_of_pos (by simp)]
  rw [List.map_cons]
  obtain ⟨t, ht⟩ := joinSp_cons (capitalizeTok (c :: (chunks cs).1))
    (List.map capitalizeTok (List.filter (fun w => decide (w ≠ [])) (chunks cs).2))
  refine ⟨(chunks cs).1.map lowerChar ++ t, ?_⟩
  rw [ht]
  rfl

theorem likeF_normalize_fake (rest : Str) :
    likeF (normalize_name (70 :: rest)) = true := by
  obtain ⟨t, ht⟩ := normalize_name_head 70 rest (by decide)
  rw [ht]
  rfl

theorem query_length_ge (pre : DBState) {B : DBState}
    (hB : ∀ r ∈ B, (decide (r.gender = Male) && likeF r.full_name) = true) :
    B.length ≤ (query_male_f (pre ++ B)).length := by
  unfold query_male_f
  rw [List.filter_append, List.length_append, List.filter_eq_self.mpr hB]
  omega

/-- **C3 counterexample.** v2 bulk generation with count = 1, special = 0
adds no rows at all: the batch loop runs `count // 10000` full batches, so
the table grows by 0, not by 1 + 0. -/
theorem generate_v2_counterexample :
    ((generate_test_data_v2 constRandV2 [] 1 0).2).length = 0 ∧
    ((generate_test_data_v2 constRandV2 [] 1 0).2).length ≠
      ([] : DBState).length + 1 + 0 := by
  decide

/-- **C3 (amended).** v1 bulk generation grows the table by exactly
count + special rows (and returns count + special), after which the filter
query returns at least special records; v2 grows the table by exactly
(count / 10000) · 10000 + special rows — whole batches of 10000 only — and
afterwards the filter query likewise returns at least special records. -/
theorem generate_test_data_spec (rs : RandV1) (rs2 : RandV2) (st st2 : DBState)
    (count special : Nat) :
    (generate_test_data rs st count special).2.length = st.length + count + special ∧
    (generate_test_data rs st count special).1 = count + special ∧
    special ≤ (query_male_f (generate_test_data rs st count special).2).length ∧
    (generate_test_data_v2 rs2 st2 count special).2.length =
      st2.length + count / 10000 * 10000 + special ∧
    special ≤ (query_male_f (generate_test_data_v2 rs2 st2 count special).2).length := by
  refine ⟨?_, rfl, ?_, ?_, ?_⟩
  · simp only [generate_test_data, List.length_append, List.length_map,
      List.length_range]
  · have hB : ∀ r ∈ (List.range special).map (v1SpecialRow rs),
        (decide (r.gender = Male) && likeF r.full_name) = true := by
      intro r hr
      obtain ⟨i, _, rfl⟩ := List.mem_map.mp hr
      simp [v1SpecialRow, likeF]
    have := query_length_ge (st ++ (List.range count).map (v1MainRow rs)) hB
    simpa [generate_test_data] using this
  · have hm : ∀ i ∈ List.range (count / 10000 * 10000), (v2MainEntry rs2 i).isSome :=
      fun i _ => v2MainEntry_isSome rs2 i
    have hs : ∀ i ∈ List.range special, (v2SpecialEntry rs2 i).isSome := by
      intro i _
      rw [v2SpecialEntry_eq]
      rfl
    simp only [generate_test_data_v2, List.length_append,
      length_filterMap_some _ _ hm, length_filterMap_some _ _ hs, List.length_range]
  · have hB : ∀ r ∈ (List.range special).filterMap (v2SpecialEntry rs2),
        (decide (r.gender = Male) && likeF r.full_name) = true := by
      intro r hr
      obtain ⟨i, _, hfi⟩ := List.mem_filterMap.mp hr
      rw [v2SpecialEntry_eq] at hfi
      cases hfi
      simp only [Bool.and_eq_true, decide_eq_true_eq]
      exact ⟨by trivial, likeF_normalize_fake _⟩
    have hlen : ((List.range special).filterMap (v2SpecialEntry rs2)).length = special := by
      rw [length_filterMap_some _ _ (fun i _ => by rw [v2SpecialEntry_eq]; rfl)]
      exact List.length_range special
    have := query_length_ge
      (st2 ++ (List.range (count / 10000 * 10000)).filterMap (v2MainEntry rs2)) hB
    rw [hlen] at this
    simpa [generate_test_data_v2] using this

/- ### The gender invariant -/

theorem normalize_gender_MF {g x : Str} (h : normalize_gender g = some x) :
    x = Male ∨ x = Female := by
  simp only [normalize_gender] at h
  split_ifs at h
  · exact Or.inl (Option.some.inj h).symm
  · exact Or.inr (Option.some.inj h).symm

theorem Employee_make_MF {n : Str} {bd : PyDate} {g : Str} {e : EmployeeRow}
    (h : Employee.make n bd g = some e) : e.gender = Male ∨ e.gender = Female := by
  unfold Employee.make at h
  cases hg : normalize_gender g with
  | none => rw [hg] at h; cases h
  | some x =>
    rw [hg] at h
    cases h
    exact normalize_gender_MF hg

theorem normalizeGenderV1_MF (g : Str) :
    normalizeGenderV1 g = Male ∨ normalizeGenderV1 g = Female := by
  unfold normalizeGenderV1
  split_ifs <;> simp

theorem step_gender {st : DBState} (op : Op) (h : GenderOK st) :
    GenderOK (step st op) := by
  cases op with
  | addV1 n b g =>
    show GenderOK (add_employee st n b g).2
    unfold add_employee
    cases hp : parse_birth_date b with
    | none => exact h
    | some d =>
      show GenderOK (st ++ [⟨n, d, normalizeGenderV1 g⟩])
      intro r hr
      rcases List.mem_append.mp hr with hr | hr
      · exact h r hr
      · simp only [List.mem_singleton] at hr
        subst hr
        exact normalizeGenderV1_MF g
  | addV2 n b g =>
    show GenderOK ((add_employee_v2 st n b g).getD st)
    cases hp : parse_birth_date b with
    | none =>
      have hres : add_employee_v2 st n b g = none := by
        simp [add_employee_v2, hp]
      rw [hres]
      exact h
    | some d =>
      cases hm : Employee.make n d g with
      | none =>
        have hres : add_employee_v2 st n b g = none := by
          simp [add_employee_v2, hp, hm]
        rw [hres]
        exact h
      | some e =>
        have hres : add_employee_v2 st n b g = some (st ++ [e]) := by
          simp [add_employee_v2, hp, hm]
        rw [hres]
        show GenderOK (st ++ [e])
        intro r hr
        rcases List.mem_append.mp hr with hr | hr
        · exact h r hr
        · simp only [List.mem_singleton] at hr
          subst hr
          exact Employee_make_MF hm
  | addV3 n b g f =>
    show GenderOK (create_employee st n b g f).2
    unfold create_employee
    cases hp : parse_birth_date b with
    | none => exact h
    | some d =>
      cases f with
      | true => exact h
      | false =>
        show GenderOK (st ++ [⟨n, d, normalizeGenderV1 g⟩])
        intro r hr
        rcases List.mem_append.mp hr with hr | hr
        · exact h r hr
        · simp only [List.mem_singleton] at hr
          subst hr
          exact normalizeGenderV1_MF g
  | genV1 rs c s =>
    intro r hr
    have hr2 : r ∈ (st ++ (List.range c).map (v1MainRow rs)) ++
        (List.range s).map (v1SpecialRow rs) := hr
    rcases List.mem_append.mp hr2 with hr3 | hr3
    · rcases List.mem_append.mp hr3 with hr4 | hr4
      · exact h r hr4
      · obtain ⟨i, _, rfl⟩ := List.mem_map.mp hr4
        unfold v1MainRow
        cases rs.genderMale i <;> simp
    · obtain ⟨i, _, rfl⟩ := List.mem_map.mp hr3
      exact Or.inl rfl
  | genV2 rs c s =>
    intro r hr
    have hr2 : r ∈ (st ++ (List.range (c / 10000 * 10000)).filterMap (v2MainEntry rs)) ++
        (List.range s).filterMap (v2SpecialEntry rs) := hr
    rcases List.mem_append.mp hr2 with hr3 | hr3
    · rcases List.mem_append.mp hr3 with hr4 | hr4
      · exact h r hr4
      · obtain ⟨i, _, hfi⟩ := List.mem_filterMap.mp hr4
        unfold v2MainEntry at hfi
        exact Employee_make_MF hfi
    · obtain ⟨i, _, hfi⟩ := List.mem_filterMap.mp hr3
      unfold v2SpecialEntry at hfi
      exact Employee_make_MF hfi
  | listAll => exact h
  | filterMaleF => exact h
  | optimize => exact h

/-- **C9.** In every table state reachable from the empty table through
the public operations of any version (add, bulk generate, list, filter,
optimize), every stored row's gender is exactly "Male" or "Female". -/
theorem run_gender_invariant (ops : List Op) : GenderOK (run ops) := by
  suffices hs : ∀ st, GenderOK st → GenderOK (ops.foldl step st) from
    hs [] (fun r hr => absurd hr (List.not_mem_nil r))
  induction ops with
  | nil => exact fun st h => h
  | cons op ops ih => exact fun st h => ih (step st op) (step_gender op h)

/- ### The v1 list operation -/

theorem sameKey_eq_false {a b : EmployeeRow} (h : sameKey a b = false) : keyNe a b := by
  intro hc
  unfold sameKey at h
  simp [hc.1, hc.2] at h

theorem groupByKey_pairwise (st : DBState) : (groupByKey st).Pairwise keyNe := by
  suffices hgen : ∀ (l : DBState) (acc : DBState), acc.Pairwise keyNe →
      (l.foldl (fun acc r => if acc.any (fun x => sameKey x r) then acc
        else acc ++ [r]) acc).Pairwise keyNe from
    hgen st [] List.Pairwise.nil
  intro l
  induction l with
  | nil => exact fun acc h => h
  | cons r l ih =>
    intro acc hacc
    show (List.foldl _ (if acc.any (fun x => sameKey x r) then acc
      else acc ++ [r]) l).Pairwise keyNe
    split_ifs with hc
    · exact ih acc hacc
    · apply ih
      rw [List.pairwise_append]
      refine ⟨hacc, List.pairwise_singleton _ _, ?_⟩
      intro a ha b hb
      simp only [List.mem_singleton] at hb
      rw [hb]
      have hfa : sameKey a r = false := by
        cases hv : sameKey a r
        · rfl
        · exact absurd (List.any_eq_true.mpr ⟨a, ha, hv⟩) hc
      exact sameKey_eq_false hfa

theorem strLe_total (s t : Str) : strLe s t = true ∨ strLe t s = true := by
  induction s generalizing t with
  | nil => exact Or.inl rfl
  | cons x xs ih =>
    cases t with
    | nil => exact Or.inr rfl
    | cons y ys =>
      rcases Nat.lt_trichotomy x y with hxy | hxy | hxy
      · left
        simp [strLe, hxy]
      · subst hxy
        rcases ih ys with h2 | h2
        · left
          simp [strLe, h2]
        · right
          simp [strLe, h2]
      · right
        simp [strLe, hxy]

theorem strLe_trans (s : Str) :
    ∀ t u, strLe s t = true → strLe t u = true → strLe s u = true := by
  induction s with
  | nil => intro t u _ _; rfl
  | cons x xs ih =>
    intro t u h1 h2
    cases t with
    | nil => simp [strLe] at h1
    | cons y ys =>
      cases u with
      | nil => simp [strLe] at h2
      | cons z zs =>
        simp only [strLe] at h1 h2 ⊢
        by_cases hxy : x < y
        · by_cases hyz : y < z
          · rw [if_pos (Nat.lt_trans hxy hyz)]
          · rw [if_neg hyz] at h2
            by_cases hye : y = z
            · subst hye
              rw [if_pos hxy]
            · rw [if_neg hye] at h2
              exact absurd h2 (by simp)
        · rw [if_neg hxy] at h1
          by_cases hxe : x = y
          · subst hxe
            rw [if_pos rfl] at h1
            by_cases hxz : x < z
            · rw [if_pos hxz]
            · rw [if_neg hxz] at h2 ⊢
              by_cases hze : x = z
              · rw [if_pos hze] at h2 ⊢
                exact ih ys zs h1 h2
              · rw [if_neg hze] at h2
                exact absurd h2 (by simp)
          · rw [if_neg hxe] at h1
            exact absurd h1 (by simp)

/-- **C10.** The v1 list operation returns at most one row per distinct
(full_name, birth_date) pair, its output is sorted by full name, and on a
table with two rows sharing both key fields its output is strictly shorter
than the table. -/
theorem get_all_employees_spec :
    (∀ st, (get_all_employees st).Pairwise keyNe) ∧
    (∀ st, List.Sorted nameLe (get_all_employees st)) ∧
    (∃ st : DBState, (get_all_employees st).length < st.length) := by
  have hsymm : Symmetric keyNe := by
    intro a b hab hc
    exact hab ⟨hc.1.symm, hc.2.symm⟩
  refine ⟨?_, ?_, ?_⟩
  · intro st
    have hperm := List.perm_insertionSort nameLe (groupByKey st)
    exact (List.Perm.pairwise_iff (fun hab => hsymm hab) hperm).mpr
      (groupByKey_pairwise st)
  · intro st
    haveI : IsTotal EmployeeRow nameLe :=
      ⟨fun a b => strLe_total a.full_name b.full_name⟩
    haveI : IsTrans EmployeeRow nameLe :=
      ⟨fun a b c h1 h2 => strLe_trans _ _ _ h1 h2⟩
    exact List.sorted_insertionSort nameLe (groupByKey st)
  · refine ⟨[⟨[97], ⟨1990, 1, 1⟩, Male⟩, ⟨[97], ⟨1990, 1, 1⟩, Male⟩], ?_⟩
    decide

/-- Witness for C4 at the v1 trace. -/
theorem optimize_trace_spec_witness :
    optimizeTraceV1.head? = some OptStep.measureQuery ∧
    optimizeTraceV1.getLast? = some OptStep.measureQuery := by
  have h := optimize_trace_spec
  have h1 := h.2.2.2.1 optimizeTraceV1 (by simp)
  exact ⟨h1.1, h1.2.1⟩

/-- Witness for C9: the state reached by one v1 add with the unknown
gender "x" contains only rows whose gender is "Male" or "Female". -/
theorem run_gender_invariant_witness :
    (⟨[73], ⟨1990, 5, 15⟩, Female⟩ : EmployeeRow).gender = Male ∨
    (⟨[73], ⟨1990, 5, 15⟩, Female⟩ : EmployeeRow).gender = Female :=
  run_gender_invariant [Op.addV1 [73] [49, 57, 57, 48, 45, 48, 53, 45, 49, 53] [120]]
    ⟨[73], ⟨1990, 5, 15⟩, Female⟩ (by decide)
